import Mathlib

/-!
Verification of the RESP-like protocol core of a minimal Redis-style server
(src/main.rs): the `DataType` codec (`Display` encoding, `TryFrom<&str>`
decoding, `chainparse`), the command walk of `handle_incoming`, and the
expiring key-value store (`MapValue`, `MapValueTimer`, `MapEntry`).

The wire buffer is modelled as `List Char`, one `Char` per byte (the server
maps bytes to chars one-for-one before parsing, and all protocol text in
scope is ASCII); string lengths therefore coincide with Rust's byte lengths.
`Instant`/`Duration` are modelled as natural numbers of milliseconds, with
`elapsed start = now - start`.  Rust panics (`split_at` out of bounds,
`todo!()`) are modelled as distinguished error outcomes `panicSplitAt` /
`todoNotImplemented`, kept apart from the `io::Error` decode results.
-/

set_option maxRecDepth 4000
set_option maxHeartbeats 1000000

namespace Redis

/-- Protocol values: `enum DataType` of src/main.rs. -/
inductive DataType where
  | SimpleString : List Char → DataType
  | BulkString : Option (List Char) → DataType
  | Array : List DataType → DataType

/-- The `"\r\n"` frame delimiter. -/
def crlf : List Char := ['\r', '\n']

/-- The character for a decimal digit value below ten. -/
def digitChar : Nat → Char
  | 0 => '0'
  | 1 => '1'
  | 2 => '2'
  | 3 => '3'
  | 4 => '4'
  | 5 => '5'
  | 6 => '6'
  | 7 => '7'
  | 8 => '8'
  | _ => '9'

/-- Decimal digits of a natural number, most significant first: how Rust's
`Display` writes a `usize` (as in `format!("${}\r\n...", len)`). -/
def natDigits (n : Nat) : List Char :=
  if n < 10 then [digitChar n]
  else natDigits (n / 10) ++ [digitChar (n % 10)]
termination_by n
decreasing_by exact Nat.div_lt_self (by omega) (by omega)

mutual

/-- Wire encoding of a protocol value: `impl fmt::Display for DataType`. -/
def encode : DataType → List Char
  | .SimpleString payload => '+' :: (payload ++ crlf)
  | .BulkString (some elt) => '$' :: (natDigits elt.length ++ crlf ++ elt ++ crlf)
  | .BulkString none => '$' :: ('-' :: ('1' :: crlf))
  | .Array elts => '*' :: (natDigits elts.length ++ crlf ++ encodeList elts)

/-- The fold in the `Array` arm of `Display`: element encodings concatenated
in order. -/
def encodeList : List DataType → List Char
  | [] => []
  | e :: es => encode e ++ encodeList es

end

/-- Value of a digit string, accumulated left to right as integer parsing does. -/
def digitsToNat (s : List Char) : Nat :=
  s.foldl (fun acc c => acc * 10 + (c.toNat - 48)) 0

/-- A nonempty all-digit string parses to its value; anything else fails. -/
def parseDigits (s : List Char) : Option Nat :=
  if s = [] then none
  else if s.all Char.isDigit then some (digitsToNat s) else none

/-- Rust `str::parse::<usize>()` (also `<u64>`): an optional `+` sign, then
decimal digits, rejecting values at or above `2 ^ 64` (positive overflow). -/
def parseUsize (s : List Char) : Option Nat :=
  let body := match s with
    | c :: rest => if c = '+' then rest else c :: rest
    | [] => []
  (parseDigits body).bind (fun n => if n < 2 ^ 64 then some n else none)

/-- Rust `str::parse::<isize>()`: an optional sign, then decimal digits,
within the signed 64-bit range. -/
def parseIsize (s : List Char) : Option Int :=
  match s with
  | [] => none
  | c :: rest =>
    if c = '-' then
      (parseDigits rest).bind (fun n => if n ≤ 2 ^ 63 then some (-(n : Int)) else none)
    else if c = '+' then
      (parseDigits rest).bind (fun n => if n < 2 ^ 63 then some ((n : Int)) else none)
    else
      (parseDigits (c :: rest)).bind (fun n => if n < 2 ^ 63 then some ((n : Int)) else none)

/-- Rust `str::split_once(pat)`: split around the first occurrence of `pat`,
`none` when `pat` never occurs. -/
def splitOnce (s pat : List Char) : Option (List Char × List Char) :=
  if pat.isPrefixOf s then some ([], s.drop pat.length)
  else
    match s with
    | [] => none
    | c :: rest => (splitOnce rest pat).map (fun p => (c :: p.1, p.2))

/-- Rust `str::get(0..len)` on the byte-as-char model: the first `len`
characters when available. -/
def strGet (tl : List Char) (len : Nat) : Option (List Char) :=
  if len ≤ tl.length then some (tl.take len) else none

/-- Outcomes other than a parsed value.  The first group models the
`io::Error`s that `TryFrom` and command construction build; `panicSplitAt`
and `todoNotImplemented` model Rust panics (`split_at(1)` on an empty head,
`todo!()`); `outOfFuel` is an artifact of the fuel index, unreachable at the
fuel the top-level entry points supply. -/
inductive Err where
  | missingDelimiter
  | unknownType
  | arrayCountParse
  | bulkLengthParse
  | invalidLengthNull
  | payloadEmpty
  | invalidCommand
  | keyValueParse
  | panicSplitAt
  | todoNotImplemented
  | outOfFuel
deriving DecidableEq

/-- Second half of the bulk-string arm: the `.or(...)` fallback that parses
the head as an `isize` and accepts only `-1` (the null bulk string). -/
def parseBulkFallback (lenStr : List Char) : Except Err DataType :=
  match parseIsize lenStr with
  | some l => if l = -1 then .ok (.BulkString none) else .error .invalidLengthNull
  | none => .error .bulkLengthParse

/-- The `("$", len, tl)` arm of `TryFrom<&str> for DataType`: parse the head
as a `usize` and slice the payload, falling back to the null-bulk-string
attempt when either step fails. -/
def parseBulk (lenStr tl : List Char) : Except Err DataType :=
  match parseUsize lenStr with
  | some len =>
    match strGet tl len with
    | some content => .ok (.BulkString (some content))
    | none => parseBulkFallback lenStr
  | none => parseBulkFallback lenStr

mutual

/-- `impl TryFrom<&str> for DataType`, indexed by fuel that only bounds the
nesting depth of arrays (the sole non-structural recursion). -/
def tryFromF (fuel : Nat) (value : List Char) : Except Err DataType :=
  match splitOnce value crlf with
  | none => .error .missingDelimiter
  | some (hd, tl) =>
    match hd with
    | [] => .error .panicSplitAt
    | p :: hdRest =>
      if p = '*' then
        match parseUsize hdRest with
        | none => .error .arrayCountParse
        | some count =>
          match fuel with
          | 0 => .error .outOfFuel
          | f + 1 => (chainLoopF f count tl).map .Array
      else if p = '$' then parseBulk hdRest tl
      else .error .unknownType
termination_by (fuel, 0)

/-- The `for _ in 0..count` loop of the array arm: chainparse each element,
feeding the remainder (or `""` when absent) to the next iteration. -/
def chainLoopF (fuel : Nat) (count : Nat) (tl : List Char) :
    Except Err (List DataType) :=
  match count with
  | 0 => .ok []
  | c + 1 =>
    match chainparseF fuel tl with
    | .error e => .error e
    | .ok (segment, remainder) =>
      match chainLoopF fuel c (remainder.getD []) with
      | .error e => .error e
      | .ok rest => .ok (segment :: rest)
termination_by (fuel, count + 2)

/-- `DataType::chainparse`: parse one value, then split the input around the
first occurrence of that value's re-rendered encoding to recover the
remainder. -/
def chainparseF (fuel : Nat) (s : List Char) :
    Except Err (DataType × Option (List Char)) :=
  match tryFromF fuel s with
  | .error e => .error e
  | .ok segment =>
    match splitOnce s (encode segment) with
    | some (_, tl) => .ok (segment, some tl)
    | none => .ok (segment, none)
termination_by (fuel, 1)

end

/-- `DataType::try_from` at a fuel that exceeds any reachable array nesting
depth of the input. -/
def DataType.tryFrom (value : List Char) : Except Err DataType :=
  tryFromF (value.length + 1) value

/-- `DataType::chainparse` at the same ample fuel. -/
def DataType.chainparse (s : List Char) : Except Err (DataType × Option (List Char)) :=
  chainparseF (s.length + 1) s

/-- `DataType::try_take`: the payload text of a string-bearing element. -/
def tryTake : DataType → Option (List Char)
  | .SimpleString s => some s
  | .BulkString s => s
  | .Array _ => none

/-- The supported commands: `enum Command` of src/main.rs.  A `Get` already
holds the (cloned) looked-up data; a `Set` records only that the store was
written. -/
inductive Command where
  | Ping : Option (List Char) → Command
  | Echo : List Char → Command
  | Set : Command
  | Get : Option (List Char) → Command
deriving DecidableEq

/-- `Command::match_command`: the bare keywords recognised without payload. -/
def matchCommand (command : List Char) : Except Err Command :=
  if command = "PING".toList ∨ command = "ping".toList then .ok (.Ping none)
  else .error .invalidCommand

/-- `impl FromStr for Command`: an empty payload is an error; a payload with
a space reaches `match_command_with_payload`, whose body is `todo!()` (a
panic); otherwise the bare keyword is matched. -/
def fromStr (s : List Char) : Except Err Command :=
  if s = [] then .error .payloadEmpty
  else
    match splitOnce s [' '] with
    | some _ => .error .todoNotImplemented
    | none => matchCommand s

/-- `impl fmt::Display for Command`: the reply wire form of each command.
`Ping(Some _)` is `todo!()` in the source, a panic. -/
def Command.display : Command → Except Err (List Char)
  | .Ping none => .ok (encode (.SimpleString "PONG".toList))
  | .Ping (some _) => .error .todoNotImplemented
  | .Echo s => .ok (encode (.BulkString (some s)))
  | .Set => .ok (encode (.SimpleString "OK".toList))
  | .Get (some s) => .ok (encode (.BulkString (some s)))
  | .Get none => .ok (encode (.BulkString none))

/-- `MapValueTimer`: a start `Instant` and a `Duration` timeout, both in
milliseconds. -/
structure MapValueTimer where
  start : Nat
  timeout : Nat
deriving DecidableEq

/-- `MapValueTimer::is_expired`: `self.start.elapsed() >= self.timeout`. -/
def MapValueTimer.isExpired (now : Nat) (t : MapValueTimer) : Bool :=
  decide (t.timeout ≤ now - t.start)

/-- `MapValue`: stored data with an optional expiration timer. -/
structure MapValue where
  data : List Char
  timer : Option MapValueTimer
deriving DecidableEq

/-- `MapValue::is_expired`: false when no timer is attached. -/
def MapValue.isExpired (now : Nat) (v : MapValue) : Bool :=
  match v.timer with
  | some timer => timer.isExpired now
  | none => false

/-- `MapEntry`: a key paired with the value to store. -/
structure MapEntry where
  key : List Char
  value : MapValue
deriving DecidableEq

/-- The shared `HashMap<String, MapValue>`, modelled as an association list
with unique keys. -/
abbrev DataMap := List (List Char × MapValue)

/-- `HashMap::insert`: overwrite semantics, replacing any entry at the key. -/
def dbInsert (db : DataMap) (k : List Char) (v : MapValue) : DataMap :=
  (k, v) :: db.filter (fun p => !(p.1 == k))

/-- `impl TryFrom<&mut IntoIter<DataType>> for MapEntry`: consume the key and
value (string-bearing, else the whole construction fails), then optionally a
`px` marker and a millisecond count; a `px` count that is absent or fails to
parse as `u64` leaves the timer `None`.  Returns the rest of the iterator.
`now` is the `Instant::now()` read by `MapValueTimer::new`. -/
def mapEntryTryFrom (now : Nat) : List DataType → Except Err (MapEntry × List DataType)
  | [] => .error .keyValueParse
  | e1 :: rest1 =>
    match tryTake e1 with
    | none => .error .keyValueParse
    | some key =>
      match rest1 with
      | [] => .error .keyValueParse
      | e2 :: rest2 =>
        match tryTake e2 with
        | none => .error .keyValueParse
        | some data =>
          match rest2 with
          | [] => .ok (⟨key, ⟨data, none⟩⟩, [])
          | e3 :: rest3 =>
            match tryTake e3 with
            | none => .ok (⟨key, ⟨data, none⟩⟩, rest3)
            | some contained =>
              if contained = "px".toList then
                match rest3 with
                | [] => .ok (⟨key, ⟨data, none⟩⟩, [])
                | e4 :: rest4 =>
                  .ok (⟨key,
                        ⟨data,
                          (tryTake e4).bind (fun timeoutStr =>
                            (parseUsize timeoutStr).map
                              (fun ms => MapValueTimer.mk now ms))⟩⟩,
                       rest4)
              else .ok (⟨key, ⟨data, none⟩⟩, rest3)

/-- The iterator never grows: whatever `MapEntry::try_from` hands back is a
tail of what it was given. -/
theorem mapEntryTryFrom_length (now : Nat) (l : List DataType)
    (entry : MapEntry) (rest' : List DataType)
    (h : mapEntryTryFrom now l = .ok (entry, rest')) : rest'.length ≤ l.length := by
  unfold mapEntryTryFrom at h
  repeat' split at h
  all_goals cases h
  all_goals simp only [List.length_cons, List.length_nil]
  all_goals omega

/-- One iteration of the element walk in `handle_incoming`'s array arm:
match one string-bearing element against the command keywords, consuming its
arguments as the source does, producing the updated store, an optional
command, and the rest of the iterator.  A non-string-bearing element at
keyword position is `todo!()` (a panic); a `SET` whose `MapEntry`
construction fails aborts with that error. -/
def handleCommandStep (now : Nat) (db : DataMap) (elt : DataType)
    (rest : List DataType) : Except Err (DataMap × Option Command × List DataType) :=
  match tryTake elt with
  | none => .error .todoNotImplemented
  | some s =>
    if s = "ECHO".toList ∨ s = "echo".toList then
      match rest with
      | [] => .ok (db, none, [])
      | payload :: rest2 =>
        match tryTake payload with
        | some toEcho => .ok (db, some (.Echo toEcho), rest2)
        | none => .ok (db, none, rest2)
    else if s = "PING".toList ∨ s = "ping".toList then
      match rest with
      | [] => .ok (db, some (.Ping none), [])
      | payload :: rest2 => .ok (db, some (.Ping (tryTake payload)), rest2)
    else if s = "SET".toList ∨ s = "set".toList then
      match mapEntryTryFrom now rest with
      | .error e => .error e
      | .ok (entry, rest') => .ok (dbInsert db entry.key entry.value, some .Set, rest')
    else if s = "GET".toList ∨ s = "get".toList then
      match rest with
      | [] => .ok (db, none, [])
      | kElt :: rest2 =>
        match tryTake kElt with
        | none => .ok (db, none, rest2)
        | some k =>
          .ok (db,
            some (.Get ((List.lookup k db).bind
              (fun v => if v.isExpired now then none else some v.data))), rest2)
    else .ok (db, none, rest)

/-- One iteration never grows the iterator. -/
theorem handleCommandStep_length (now : Nat) (db : DataMap) (elt : DataType)
    (rest : List DataType) (db' : DataMap) (c : Option Command) (rest' : List DataType)
    (h : handleCommandStep now db elt rest = .ok (db', c, rest')) :
    rest'.length ≤ rest.length := by
  unfold handleCommandStep at h
  repeat' split at h
  all_goals cases h
  all_goals try simp only [List.length_cons, List.length_nil]
  all_goals try omega
  rename_i hse
  exact mapEntryTryFrom_length now rest _ _ hse

/-- The element walk of `handle_incoming`'s array arm (`while let Some(elt) =
elt_iter.next()`): run one command step, push its command if any, and
continue on the rest of the iterator with the updated store. -/
def handleIncomingElements (now : Nat) (db : DataMap) (elts : List DataType) :
    Except Err (DataMap × List Command) :=
  match elts with
  | [] => .ok (db, [])
  | elt :: rest =>
    match hstep : handleCommandStep now db elt rest with
    | .error e => .error e
    | .ok (db', cmdOpt, rest') =>
      (handleIncomingElements now db' rest').map
        (fun r => (r.1, cmdOpt.toList ++ r.2))
termination_by elts.length
decreasing_by
  simp_wf
  have := handleCommandStep_length _ _ _ _ _ _ _ hstep
  omega

/-- The command-construction step of `handle_incoming` for one decoded
buffer: a null bulk string yields nothing; a top-level string is fed to
`Command::from_str` with construction errors dropped (but the `todo!()`
payload path is a panic); an array is walked element by element. -/
def handleIncomingData (now : Nat) (db : DataMap) : DataType → Except Err (DataMap × List Command)
  | .BulkString none => .ok (db, [])
  | .SimpleString s | .BulkString (some s) =>
    match fromStr s with
    | .ok c => .ok (db, [c])
    | .error .todoNotImplemented => .error .todoNotImplemented
    | .error _ => .ok (db, [])
  | .Array elts => handleIncomingElements now db elts

mutual

/-- No `SimpleString` occurs anywhere in the value: the decoder dispatches no
`+` tag, so only such values can round-trip. -/
def noSimple : DataType → Bool
  | .SimpleString _ => false
  | .BulkString _ => true
  | .Array els => noSimpleList els

def noSimpleList : List DataType → Bool
  | [] => true
  | e :: es => noSimple e && noSimpleList es

end

mutual

/-- Every bulk-string payload and every array is shorter than `2 ^ 64`
elements — automatic for any value materialised in the Rust source, where
lengths are `usize`. -/
def sizeOK : DataType → Bool
  | .SimpleString _ => true
  | .BulkString none => true
  | .BulkString (some s) => decide (s.length < 2 ^ 64)
  | .Array els => decide (els.length < 2 ^ 64) && sizeOKList els

def sizeOKList : List DataType → Bool
  | [] => true
  | e :: es => sizeOK e && sizeOKList es

end

theorem noSimpleList_mem {els : List DataType} {e : DataType}
    (h : noSimpleList els = true) (hm : e ∈ els) : noSimple e = true := by
  induction els with
  | nil => cases hm
  | cons x xs ih =>
    simp only [noSimpleList, Bool.and_eq_true] at h
    rcases hm with _ | hm
    · exact h.1
    · exact ih h.2 ‹_›

theorem sizeOKList_mem {els : List DataType} {e : DataType}
    (h : sizeOKList els = true) (hm : e ∈ els) : sizeOK e = true := by
  induction els with
  | nil => cases hm
  | cons x xs ih =>
    simp only [sizeOKList, Bool.and_eq_true] at h
    rcases hm with _ | hm
    · exact h.1
    · exact ih h.2 ‹_›

theorem digitChar_isDigit {k : Nat} (h : k < 10) : (digitChar k).isDigit = true := by
  interval_cases k <;> decide

theorem digitChar_toNat {k : Nat} (h : k < 10) : (digitChar k).toNat - 48 = k := by
  interval_cases k <;> decide

theorem natDigits_forall_digit (n : Nat) : ∀ c ∈ natDigits n, c.isDigit = true := by
  induction n using Nat.strong_induction_on with
  | _ n ih =>
    unfold natDigits
    split
    · intro c hc
      simp only [List.mem_singleton] at hc
      exact hc ▸ digitChar_isDigit ‹n < 10›
    · intro c hc
      rw [List.mem_append] at hc
      rcases hc with hc | hc
      · exact ih (n / 10) (Nat.div_lt_self (by omega) (by omega)) c hc
      · simp only [List.mem_singleton] at hc
        exact hc ▸ digitChar_isDigit (Nat.mod_lt _ (by omega))

theorem natDigits_ne_nil (n : Nat) : natDigits n ≠ [] := by
  unfold natDigits
  split <;> simp

theorem cr_not_mem_natDigits (n : Nat) : '\r' ∉ natDigits n := by
  intro h
  have := natDigits_forall_digit n _ h
  simp [Char.isDigit] at this

theorem digitsToNat_append_singleton (a : List Char) (c : Char) :
    digitsToNat (a ++ [c]) = digitsToNat a * 10 + (c.toNat - 48) := by
  simp [digitsToNat, List.foldl_append]

theorem digitsToNat_natDigits (n : Nat) : digitsToNat (natDigits n) = n := by
  induction n using Nat.strong_induction_on with
  | _ n ih =>
    unfold natDigits
    split
    · simp [digitsToNat, digitChar_toNat ‹n < 10›]
    · rw [digitsToNat_append_singleton,
        ih (n / 10) (Nat.div_lt_self (by omega) (by omega)),
        digitChar_toNat (Nat.mod_lt _ (by omega))]
      omega

theorem parseDigits_natDigits (n : Nat) : parseDigits (natDigits n) = some n := by
  unfold parseDigits
  rw [if_neg (natDigits_ne_nil n),
    if_pos (List.all_eq_true.mpr (natDigits_forall_digit n)), digitsToNat_natDigits]

theorem parseUsize_natDigits {n : Nat} (h : n < 2 ^ 64) :
    parseUsize (natDigits n) = some n := by
  obtain ⟨c, cs, hnd⟩ : ∃ c cs, natDigits n = c :: cs := by
    cases hd : natDigits n with
    | nil => exact absurd hd (natDigits_ne_nil n)
    | cons c cs => exact ⟨c, cs, rfl⟩
  have hc : c.isDigit = true := natDigits_forall_digit n c (hnd ▸ List.mem_cons_self c cs)
  have hcp : ¬(c = '+') := by
    intro hcp
    rw [hcp] at hc
    simp [Char.isDigit] at hc
  rw [parseUsize.eq_def, hnd]
  simp only [if_neg hcp]
  rw [← hnd, parseDigits_natDigits]
  simp only [Option.bind_eq_bind, Option.some_bind, if_pos h]

theorem isPrefixOf_append_right (a b : List Char) : a.isPrefixOf (a ++ b) = true := by
  induction a with
  | nil => simp [List.isPrefixOf]
  | cons c cs ih => simp [List.isPrefixOf, ih]

/-- `split_once` at the whole pattern sitting at the front: the remainder is
exactly what follows it. -/
theorem splitOnce_append_self (pat rest : List Char) :
    splitOnce (pat ++ rest) pat = some ([], rest) := by
  rw [splitOnce.eq_def, if_pos (isPrefixOf_append_right pat rest), List.drop_left]

/-- `split_once("\r\n")` on a buffer whose head segment is free of `'\r'`
splits exactly at the delimiter. -/
theorem splitOnce_crlf_boundary (a b : List Char) (ha : '\r' ∉ a) :
    splitOnce (a ++ crlf ++ b) crlf = some (a, b) := by
  induction a with
  | nil => simpa using splitOnce_append_self crlf b
  | cons c cs ih =>
    have hc : ¬ c = '\r' := fun h => ha (h ▸ List.mem_cons_self c cs)
    have hp : (crlf.isPrefixOf (c :: cs ++ crlf ++ b)) = false := by
      simp only [crlf, List.cons_append, List.isPrefixOf, Bool.and_eq_false_iff]
      left
      simp [beq_eq_false_iff_ne]
      exact fun h => hc h.symm
    rw [splitOnce.eq_def,
      if_neg (fun hcon => by rw [hp] at hcon; exact Bool.false_ne_true hcon)]
    simp only [List.cons_append]
    rw [ih (fun h => ha (List.mem_cons_of_mem c h))]
    rfl

theorem encode_length_pos (v : DataType) : 1 ≤ (encode v).length := by
  cases v with
  | SimpleString s => simp [encode]
  | BulkString o => cases o <;> simp [encode]
  | Array els => simp [encode]

theorem encodeList_length_mem {e : DataType} {els : List DataType} (h : e ∈ els) :
    (encode e).length ≤ (encodeList els).length := by
  induction els with
  | nil => cases h
  | cons x xs ih =>
    rcases h with _ | h
    · simp [encodeList]
    · have := ih ‹_›
      simp only [encodeList, List.length_append]
      omega

/-- Every element encoding sits, with at least four bytes of header to
spare, inside the encoding of the array. -/
theorem encode_array_length {els : List DataType} :
    (encodeList els).length + 4 ≤ (encode (.Array els)).length := by
  have h1 := natDigits_ne_nil els.length
  have h2 : 1 ≤ (natDigits els.length).length := by
    cases hd : natDigits els.length with
    | nil => exact absurd hd h1
    | cons c cs => simp
  simp only [encode, List.length_cons, List.length_append, crlf]
  simp only [List.length_cons, List.length_nil]
  omega

/-- Evaluation of `try_from` once the delimiter split has produced a `$`
head: the bulk-string arm runs on the head's digits and the tail. -/
theorem tryFromF_eval_dollar (fuel : Nat) (value hdRest tl : List Char)
    (hsp : splitOnce value crlf = some ('$' :: hdRest, tl)) :
    tryFromF fuel value = parseBulk hdRest tl := by
  rw [tryFromF.eq_def, hsp]
  simp

/-- Evaluation of `try_from` once the delimiter split has produced a `*`
head: the array arm parses the count and runs the element loop. -/
theorem tryFromF_eval_star (fuel : Nat) (value hdRest tl : List Char)
    (hsp : splitOnce value crlf = some ('*' :: hdRest, tl)) :
    tryFromF (fuel + 1) value =
      match parseUsize hdRest with
      | none => .error .arrayCountParse
      | some count => (chainLoopF fuel count tl).map .Array := by
  rw [tryFromF.eq_def, hsp]
  simp

theorem cr_not_mem_tag_digits (c : Char) (hc : c ≠ '\r') (n : Nat) :
    '\r' ∉ c :: natDigits n := by
  intro hm
  rcases List.mem_cons.mp hm with h | h
  · exact hc h.symm
  · exact cr_not_mem_natDigits n h

/-- Decoding an encoded bulk string (with anything appended) recovers it. -/
theorem tryFromF_encode_bulkSome (fuel : Nat) (s rest : List Char)
    (h : s.length < 2 ^ 64) :
    tryFromF fuel (encode (.BulkString (some s)) ++ rest) = .ok (.BulkString (some s)) := by
  have harr : encode (.BulkString (some s)) ++ rest
      = ('$' :: natDigits s.length) ++ crlf ++ (s ++ (crlf ++ rest)) := by
    simp [encode]
  rw [harr,
    tryFromF_eval_dollar _ _ _ _
      (splitOnce_crlf_boundary _ _ (cr_not_mem_tag_digits '$' (by decide) _)),
    parseBulk.eq_def, parseUsize_natDigits h]
  have hget : strGet (s ++ (crlf ++ rest)) s.length = some s := by
    rw [strGet, if_pos (by simp only [List.length_append]; omega), List.take_left]
  dsimp only
  rw [hget]

/-- Decoding an encoded null bulk string (with anything appended). -/
theorem tryFromF_encode_bulkNone (fuel : Nat) (rest : List Char) :
    tryFromF fuel (encode (.BulkString none) ++ rest) = .ok (.BulkString none) := by
  have harr : encode (.BulkString none) ++ rest = ['$', '-', '1'] ++ crlf ++ rest := by
    simp [encode, crlf]
  rw [harr,
    tryFromF_eval_dollar _ _ _ _ (splitOnce_crlf_boundary ['$', '-', '1'] rest (by decide)),
    parseBulk.eq_def, show parseUsize ['-', '1'] = none from by decide]
  show parseBulkFallback ['-', '1'] = .ok (.BulkString none)
  rfl

theorem chainLoopF_zero (fuel : Nat) (tl : List Char) :
    chainLoopF fuel 0 tl = .ok [] := by
  rw [chainLoopF.eq_def]

theorem chainLoopF_succ (fuel c : Nat) (tl : List Char) :
    chainLoopF fuel (c + 1) tl =
      match chainparseF fuel tl with
      | .error e => .error e
      | .ok (segment, remainder) =>
        match chainLoopF fuel c (remainder.getD []) with
        | .error e => .error e
        | .ok rest => .ok (segment :: rest) := by
  rw [chainLoopF.eq_def]

/-- Running the element loop over the encodings of `els` followed by any
suffix: each iteration consumes exactly one element's wire form, so the loop
continues on the suffix with the remaining count. -/
theorem chainLoopF_append (fuel c : Nat) (tl' : List Char) (els : List DataType)
    (hH : ∀ e ∈ els, ∀ more : List Char,
      chainparseF fuel (encode e ++ more) = .ok (e, some more)) :
    chainLoopF fuel (els.length + c) (encodeList els ++ tl')
      = (chainLoopF fuel c tl').map (fun l => els ++ l) := by
  induction els with
  | nil =>
    simp only [List.length_nil, Nat.zero_add, encodeList, List.nil_append]
    cases chainLoopF fuel c tl' <;> simp [Except.map]
  | cons e es ih =>
    have h1 : chainparseF fuel (encode e ++ (encodeList es ++ tl'))
        = .ok (e, some (encodeList es ++ tl')) := hH e (List.mem_cons_self e es) _
    have harith : (e :: es).length + c = (es.length + c) + 1 := by
      simp only [List.length_cons]
      omega
    have hlist : encodeList (e :: es) ++ tl' = encode e ++ (encodeList es ++ tl') := by
      simp [encodeList]
    rw [harith, hlist, chainLoopF_succ, h1]
    simp only [Option.getD_some]
    rw [ih (fun x hx => hH x (List.mem_cons_of_mem e hx))]
    cases chainLoopF fuel c tl' <;> simp [Except.map]

/-- Main decode-of-encode theorem: for a value free of simple strings and of
oversize lengths, `try_from` at sufficient fuel parses the value's encoding
(whatever follows it) back to the value.  `nb` is a bound used only for the
induction. -/
theorem tryFromF_encode : ∀ (nb : Nat) (v : DataType), (encode v).length ≤ nb →
    noSimple v = true → sizeOK v = true →
    ∀ (rest : List Char) (fuel : Nat), (encode v).length ≤ fuel →
    tryFromF fuel (encode v ++ rest) = .ok v := by
  intro nb
  induction nb with
  | zero =>
    intro v hv _ _
    exact absurd hv (Nat.not_le.mpr (encode_length_pos v))
  | succ nb ih =>
    intro v hlen hns hsz rest fuel hfuel
    match v with
    | .SimpleString s => exact absurd hns (by simp [noSimple])
    | .BulkString (some s) =>
      refine tryFromF_encode_bulkSome fuel s rest ?_
      simpa [sizeOK] using hsz
    | .BulkString none => exact tryFromF_encode_bulkNone fuel rest
    | .Array els =>
      have hszl : els.length < 2 ^ 64 ∧ sizeOKList els = true := by
        simpa [sizeOK, Bool.and_eq_true] using hsz
      have hnsl : noSimpleList els = true := by simpa [noSimple] using hns
      have harr : encode (.Array els) ++ rest
          = ('*' :: natDigits els.length) ++ crlf ++ (encodeList els ++ rest) := by
        simp [encode]
      obtain ⟨f, rfl⟩ : ∃ f, fuel = f + 1 :=
        ⟨fuel - 1, by have := encode_length_pos (.Array els); omega⟩
      have hH : ∀ e ∈ els, ∀ more : List Char,
          chainparseF f (encode e ++ more) = .ok (e, some more) := by
        intro e he more
        have h4 : (encodeList els).length + 4 ≤ (encode (.Array els)).length :=
          encode_array_length
        have h5 := encodeList_length_mem he
        have he1 : (encode e).length ≤ nb := by omega
        have he2 : (encode e).length ≤ f := by omega
        have htf := ih e he1 (noSimpleList_mem hnsl he) (sizeOKList_mem hszl.2 he) more f he2
        rw [chainparseF.eq_def, htf]
        dsimp only
        rw [splitOnce_append_self]
      rw [harr,
        tryFromF_eval_star f _ _ _
          (splitOnce_crlf_boundary _ _ (cr_not_mem_tag_digits '*' (by decide) _)),
        parseUsize_natDigits hszl.1]
      have hloop := chainLoopF_append f 0 rest els hH
      rw [Nat.add_zero, chainLoopF_zero] at hloop
      simp only [hloop]
      simp [Except.map]

/-- `chainparse` on an encoded value followed by anything: the value comes
back and the remainder is exactly the suffix. -/
theorem chainparseF_encode (fuel : Nat) (v : DataType) (hns : noSimple v = true)
    (hsz : sizeOK v = true) (more : List Char) (hf : (encode v).length ≤ fuel) :
    chainparseF fuel (encode v ++ more) = .ok (v, some more) := by
  rw [chainparseF.eq_def,
    tryFromF_encode (encode v).length v le_rfl hns hsz more fuel hf]
  dsimp only
  rw [splitOnce_append_self]

/-- Top-level `try_from` on an encoding plus suffix. -/
theorem tryFrom_encode_append (v : DataType) (rest : List Char)
    (hns : noSimple v = true) (hsz : sizeOK v = true) :
    DataType.tryFrom (encode v ++ rest) = .ok v := by
  refine tryFromF_encode (encode v).length v le_rfl hns hsz rest _ ?_
  simp only [List.length_append]
  omega

/-- Top-level `chainparse` on an encoding plus suffix. -/
theorem chainparse_encode_append (v : DataType) (rest : List Char)
    (hns : noSimple v = true) (hsz : sizeOK v = true) :
    DataType.chainparse (encode v ++ rest) = .ok (v, some rest) := by
  refine chainparseF_encode _ v hns hsz rest ?_
  simp only [List.length_append]
  omega

/-- Top-level `chainparse` on exactly an encoding: empty remainder. -/
theorem chainparse_encode (v : DataType)
    (hns : noSimple v = true) (hsz : sizeOK v = true) :
    DataType.chainparse (encode v) = .ok (v, some []) := by
  have h := chainparse_encode_append v [] hns hsz
  rwa [List.append_nil] at h

/-- A head whose signed parse is negative starts with `'-'` and therefore
cannot parse as unsigned. -/
theorem parseUsize_of_isize_neg {s : List Char} {l : Int}
    (h : parseIsize s = some l) (hl : l < 0) : parseUsize s = none := by
  match s with
  | [] => simp [parseIsize] at h
  | c :: rest =>
    simp only [parseIsize] at h
    by_cases hc : c = '-'
    · subst hc
      have hpd : parseDigits ('-' :: rest) = none := by
        simp [parseDigits, List.all_cons, show ('-').isDigit = false from by decide]
      simp only [parseUsize, if_neg (show ¬('-') = '+' from by decide), hpd,
        Option.none_bind]
    · rw [if_neg hc] at h
      exfalso
      by_cases hc2 : c = '+'
      · rw [if_pos hc2] at h
        cases hpd : parseDigits rest with
        | none => rw [hpd] at h; simp at h
        | some m =>
          rw [hpd] at h
          simp only [Option.some_bind] at h
          split at h
          · obtain rfl : (m : Int) = l := by simpa using h
            omega
          · simp at h
      · rw [if_neg hc2] at h
        cases hpd : parseDigits (c :: rest) with
        | none => rw [hpd] at h; simp at h
        | some m =>
          rw [hpd] at h
          simp only [Option.some_bind] at h
          split at h
          · obtain rfl : (m : Int) = l := by simpa using h
            omega
          · simp at h

/-- A head that parses as unsigned below `2 ^ 63` also parses as signed, to
the same value. -/
theorem parseIsize_of_usize {s : List Char} {n : Nat}
    (h : parseUsize s = some n) (hn : n < 2 ^ 63) : parseIsize s = some ((n : Int)) := by
  match s with
  | [] => simp [parseUsize, parseDigits] at h
  | c :: rest =>
    simp only [parseUsize] at h
    by_cases hc : c = '+'
    · subst hc
      rw [if_pos rfl] at h
      cases hpd : parseDigits rest with
      | none => rw [hpd] at h; simp at h
      | some m =>
        rw [hpd] at h
        simp only [Option.some_bind] at h
        split at h
        · obtain rfl : m = n := by simpa using h
          have hps : parseIsize ('+' :: rest)
              = (parseDigits rest).bind
                  (fun k => if k < 2 ^ 63 then some ((k : Int)) else none) := by
            simp [parseIsize]
          rw [hps, hpd, Option.some_bind, if_pos (by omega)]
        · simp at h
    · rw [if_neg hc] at h
      have hcm : ¬ c = '-' := by
        intro hcm
        subst hcm
        rw [show parseDigits ('-' :: rest) = none from by
          simp [parseDigits, List.all_cons, show ('-').isDigit = false from by decide]] at h
        simp at h
      cases hpd : parseDigits (c :: rest) with
      | none => rw [hpd] at h; simp at h
      | some m =>
        rw [hpd] at h
        simp only [Option.some_bind] at h
        split at h
        · obtain rfl : m = n := by simpa using h
          have hps : parseIsize (c :: rest)
              = (parseDigits (c :: rest)).bind
                  (fun k => if k < 2 ^ 63 then some ((k : Int)) else none) := by
            simp [parseIsize, hcm, hc]
          rw [hps, hpd, Option.some_bind, if_pos (by omega)]
        · simp at h

/-- A head that parses as unsigned at or above `2 ^ 63` does not parse as
signed: the `isize` reparse overflows. -/
theorem parseIsize_none_of_usize_big {s : List Char} {n : Nat}
    (h : parseUsize s = some n) (hn : 2 ^ 63 ≤ n) : parseIsize s = none := by
  match s with
  | [] => simp [parseUsize, parseDigits] at h
  | c :: rest =>
    simp only [parseUsize] at h
    by_cases hc : c = '+'
    · subst hc
      rw [if_pos rfl] at h
      cases hpd : parseDigits rest with
      | none => rw [hpd] at h; simp at h
      | some m =>
        rw [hpd] at h
        simp only [Option.some_bind] at h
        split at h
        · obtain rfl : m = n := by simpa using h
          have hps : parseIsize ('+' :: rest)
              = (parseDigits rest).bind
                  (fun k => if k < 2 ^ 63 then some ((k : Int)) else none) := by
            simp [parseIsize]
          rw [hps, hpd, Option.some_bind, if_neg (by omega)]
        · simp at h
    · rw [if_neg hc] at h
      have hcm : ¬ c = '-' := by
        intro hcm
        subst hcm
        rw [show parseDigits ('-' :: rest) = none from by
          simp [parseDigits, List.all_cons, show ('-').isDigit = false from by decide]] at h
        simp at h
      cases hpd : parseDigits (c :: rest) with
      | none => rw [hpd] at h; simp at h
      | some m =>
        rw [hpd] at h
        simp only [Option.some_bind] at h
        split at h
        · obtain rfl : m = n := by simpa using h
          have hps : parseIsize (c :: rest)
              = (parseDigits (c :: rest)).bind
                  (fun k => if k < 2 ^ 63 then some ((k : Int)) else none) := by
            simp [parseIsize, hcm, hc]
          rw [hps, hpd, Option.some_bind, if_neg (by omega)]
        · simp at h

/-- Any bulk-string frame (a `$` head free of `'\r'`, the delimiter, a tail)
decodes through the bulk-string arm. -/
theorem tryFrom_bulk_frame (lenStr tail : List Char) (h : '\r' ∉ lenStr) :
    DataType.tryFrom (('$' :: lenStr) ++ crlf ++ tail) = parseBulk lenStr tail := by
  refine tryFromF_eval_dollar _ _ _ _ (splitOnce_crlf_boundary _ _ ?_)
  intro hm
  rcases List.mem_cons.mp hm with h1 | h1
  · exact absurd h1.symm (by decide)
  · exact h h1

/-- Claim C1, counterexample: the claim quantifies over every value of the
grammar including simple strings, but the decoder dispatches no `+` tag, so
decoding the encoding of the simple string `"a"` fails with the unknown-type
error instead of returning the value with an empty remainder. -/
theorem C1_counterexample :
    DataType.tryFrom (encode (.SimpleString ['a'])) = .error .unknownType ∧
    DataType.chainparse (encode (.SimpleString ['a'])) = .error .unknownType := by
  have h : DataType.tryFrom (encode (.SimpleString ['a'])) = .error .unknownType := by
    simp +decide [DataType.tryFrom, tryFromF.eq_def, encode, crlf, splitOnce,
      List.isPrefixOf]
  refine ⟨h, ?_⟩
  rw [DataType.chainparse, chainparseF.eq_def,
    show tryFromF ((encode (.SimpleString ['a'])).length + 1) (encode (.SimpleString ['a']))
      = .error .unknownType from h]

/-- Claim C1 as amended: decoding is the left inverse of encoding for every
value built from bulk strings (possibly null) and arrays of such — that is,
every value of the grammar with no simple string anywhere (and no length at
or above `2 ^ 64`, automatic in the source) — with an empty remainder;
simple strings are encode-only. -/
theorem C1_roundtrip (v : DataType) (hns : noSimple v = true) (hsz : sizeOK v = true) :
    DataType.chainparse (encode v) = .ok (v, some []) :=
  chainparse_encode v hns hsz

/-- Witness for C1 at a concrete nested value. -/
theorem C1_roundtrip_witness :
    DataType.chainparse
        (encode (.Array [.BulkString (some ['a', 'b']), .BulkString none,
          .Array [.BulkString (some [])]]))
      = .ok (.Array [.BulkString (some ['a', 'b']), .BulkString none,
          .Array [.BulkString (some [])]], some []) :=
  C1_roundtrip _ (by decide) (by decide)

/-- Claim C2, counterexample: the head `-0` parses as the signed length `0`,
and the tail (empty) holds at least `0` bytes, so the claim demands the
empty payload `tail[0..0]`; the code instead fails with the invalid-length
error, because the `usize` attempt rejects `-0` and the fallback accepts
only `-1`. -/
theorem C2_counterexample :
    parseIsize ['-', '0'] = some 0 ∧
    DataType.tryFrom ("$-0\r\n".toList) = .error .invalidLengthNull := by
  constructor
  · decide
  · simp +decide [DataType.tryFrom, tryFromF.eq_def, splitOnce, parseBulk,
      parseBulkFallback, strGet, parseUsize, parseIsize, parseDigits, digitsToNat,
      crlf, List.isPrefixOf]

/-- Claim C2 as amended, on bulk-string frames `"$" ++ head ++ "\r\n" ++ tail`
(head free of `'\r'`): (1) the canonical head `-1` yields the null bulk
string, consuming no payload bytes from the tail; (2) any head whose signed
parse is `-1` yields the null bulk string; (3) a head parsing as unsigned
`len` with `len ≤ |tail|` yields the payload `tail[0..len]`; a head parsing
as unsigned `len` with a shorter tail fails — (4) with the invalid-length
error when `len < 2 ^ 63` (the signed reparse succeeds but is not `-1`),
(5) with the length-parse error when `2 ^ 63 ≤ len < 2 ^ 64` (the signed
reparse overflows); (6) a head parsing as signed but not as unsigned (so any
negative other than `-1`, and also spellings like `-0`) is rejected with the
invalid-length error unless its value is `-1`. -/
theorem C2_bulk_cases :
    (∀ tail : List Char,
      DataType.chainparse (('$' :: ['-', '1']) ++ crlf ++ tail)
        = .ok (.BulkString none, some tail)) ∧
    (∀ lenStr tail : List Char, '\r' ∉ lenStr → parseIsize lenStr = some (-1) →
      DataType.tryFrom (('$' :: lenStr) ++ crlf ++ tail) = .ok (.BulkString none)) ∧
    (∀ (lenStr tail : List Char) (n : Nat), '\r' ∉ lenStr → parseUsize lenStr = some n →
      n ≤ tail.length →
      DataType.tryFrom (('$' :: lenStr) ++ crlf ++ tail)
        = .ok (.BulkString (some (tail.take n)))) ∧
    (∀ (lenStr tail : List Char) (n : Nat), '\r' ∉ lenStr → parseUsize lenStr = some n →
      n < 2 ^ 63 → tail.length < n →
      DataType.tryFrom (('$' :: lenStr) ++ crlf ++ tail) = .error .invalidLengthNull) ∧
    (∀ (lenStr tail : List Char) (n : Nat), '\r' ∉ lenStr → parseUsize lenStr = some n →
      2 ^ 63 ≤ n → tail.length < n →
      DataType.tryFrom (('$' :: lenStr) ++ crlf ++ tail) = .error .bulkLengthParse) ∧
    (∀ (lenStr tail : List Char) (l : Int), '\r' ∉ lenStr → parseIsize lenStr = some l →
      parseUsize lenStr = none → l ≠ -1 →
      DataType.tryFrom (('$' :: lenStr) ++ crlf ++ tail) = .error .invalidLengthNull) := by
  refine ⟨?_, ?_, ?_, ?_, ?_, ?_⟩
  · intro tail
    have harr : ('$' :: ['-', '1']) ++ crlf ++ tail = encode (.BulkString none) ++ tail := by
      simp [encode, crlf]
    rw [harr]
    exact chainparse_encode_append (.BulkString none) tail (by decide) (by decide)
  · intro lenStr tail hcr hi
    have hu : parseUsize lenStr = none := parseUsize_of_isize_neg hi (by omega)
    rw [tryFrom_bulk_frame lenStr tail hcr, parseBulk.eq_def, hu]
    dsimp only
    rw [parseBulkFallback.eq_def, hi]
    dsimp only
    rw [if_pos rfl]
  · intro lenStr tail n hcr hu hlen
    rw [tryFrom_bulk_frame lenStr tail hcr, parseBulk.eq_def, hu]
    dsimp only
    rw [strGet, if_pos hlen]
  · intro lenStr tail n hcr hu hbound hlen
    rw [tryFrom_bulk_frame lenStr tail hcr, parseBulk.eq_def, hu]
    dsimp only
    rw [strGet, if_neg (by omega)]
    dsimp only
    rw [parseBulkFallback.eq_def, parseIsize_of_usize hu hbound]
    dsimp only
    rw [if_neg (by intro hcon; omega)]
  · intro lenStr tail n hcr hu hbig hlen
    rw [tryFrom_bulk_frame lenStr tail hcr, parseBulk.eq_def, hu]
    dsimp only
    rw [strGet, if_neg (by omega)]
    dsimp only
    rw [parseBulkFallback.eq_def, parseIsize_none_of_usize_big hu hbig]
  · intro lenStr tail l hcr hi hu hne
    rw [tryFrom_bulk_frame lenStr tail hcr, parseBulk.eq_def, hu]
    dsimp only
    rw [parseBulkFallback.eq_def, hi]
    dsimp only
    rw [if_neg hne]

/-- Witness for C2 at concrete frames, one per case; the fifth uses the
length `2 ^ 63 = 9223372036854775808`, whose signed reparse overflows. -/
theorem C2_bulk_cases_witness :
    DataType.chainparse (('$' :: ['-', '1']) ++ crlf ++ ['X'])
      = .ok (.BulkString none, some ['X']) ∧
    DataType.tryFrom (('$' :: ['-', '1']) ++ crlf ++ ['X']) = .ok (.BulkString none) ∧
    DataType.tryFrom (('$' :: ['2']) ++ crlf ++ ['a', 'b', 'X'])
      = .ok (.BulkString (some ['a', 'b'])) ∧
    DataType.tryFrom (('$' :: ['5']) ++ crlf ++ ['a', 'b']) = .error .invalidLengthNull ∧
    DataType.tryFrom (('$' :: ("9223372036854775808".toList)) ++ crlf ++ ['a'])
      = .error .bulkLengthParse ∧
    DataType.tryFrom (('$' :: ['-', '7']) ++ crlf ++ ['a']) = .error .invalidLengthNull :=
  ⟨C2_bulk_cases.1 ['X'],
   C2_bulk_cases.2.1 ['-', '1'] ['X'] (by decide) (by decide),
   by
     have h := C2_bulk_cases.2.2.1 ['2'] ['a', 'b', 'X'] 2 (by decide) (by decide)
       (by decide)
     simpa using h,
   C2_bulk_cases.2.2.2.1 ['5'] ['a', 'b'] 5 (by decide) (by decide) (by norm_num)
     (by decide),
   C2_bulk_cases.2.2.2.2.1 ("9223372036854775808".toList) ['a'] (2 ^ 63) (by decide)
     (by decide) (by norm_num) (by norm_num),
   C2_bulk_cases.2.2.2.2.2 ['-', '7'] ['a'] (-7) (by decide) (by decide) (by decide)
     (by decide)⟩

/-- Claim C3, confirmed: decoding an array with declared count `n`, each of
the `n` element decodes consumes exactly the bytes of that element's wire
form and hands the exact remainder to the next iteration — (1) one
`chainparse` step on an element encoding plus suffix returns the element and
exactly the suffix; (2) the `n`-step loop over `n` element encodings plus a
suffix decodes exactly the elements; (3) after the whole array, trailing
bytes of the buffer survive as the remainder. -/
theorem C3_array_consumption :
    (∀ (e : DataType) (more : List Char), noSimple e = true → sizeOK e = true →
      DataType.chainparse (encode e ++ more) = .ok (e, some more)) ∧
    (∀ (els : List DataType) (rest : List Char) (fuel : Nat),
      noSimpleList els = true → sizeOKList els = true →
      (∀ e ∈ els, (encode e).length ≤ fuel) →
      chainLoopF fuel els.length (encodeList els ++ rest) = .ok els) ∧
    (∀ (els : List DataType) (rest : List Char),
      noSimpleList els = true → sizeOKList els = true → els.length < 2 ^ 64 →
      DataType.chainparse (encode (.Array els) ++ rest) = .ok (.Array els, some rest)) := by
  refine ⟨?_, ?_, ?_⟩
  · intro e more hns hsz
    exact chainparse_encode_append e more hns hsz
  · intro els rest fuel hns hsz hf
    have hH : ∀ e ∈ els, ∀ more : List Char,
        chainparseF fuel (encode e ++ more) = .ok (e, some more) := by
      intro e he more
      exact chainparseF_encode fuel e (noSimpleList_mem hns he) (sizeOKList_mem hsz he)
        more (hf e he)
    have h := chainLoopF_append fuel 0 rest els hH
    rw [Nat.add_zero, chainLoopF_zero] at h
    simpa [Except.map] using h
  · intro els rest hns hsz hlen
    refine chainparse_encode_append (.Array els) rest ?_ ?_
    · simpa [noSimple] using hns
    · simp only [sizeOK, Bool.and_eq_true, decide_eq_true_eq]
      exact ⟨hlen, hsz⟩

/-- Witness for C3 at a concrete element, loop and array. -/
theorem C3_array_consumption_witness :
    DataType.chainparse (encode (.BulkString (some ['h', 'i'])) ++ ['Z'])
      = .ok (.BulkString (some ['h', 'i']), some ['Z']) ∧
    DataType.chainparse (encode (.Array [.BulkString (some ['h', 'i']), .BulkString none]) ++ ['Q'])
      = .ok (.Array [.BulkString (some ['h', 'i']), .BulkString none], some ['Q']) :=
  ⟨C3_array_consumption.1 _ ['Z'] (by decide) (by decide),
   C3_array_consumption.2.2 [.BulkString (some ['h', 'i']), .BulkString none] ['Q']
     (by decide) (by decide) (by norm_num)⟩

/-- Claim C4, counterexample: the buffer `"*1\r\n\r\n"` declares count `1`
with zero decodable elements in its tail, so the claim demands a
length/delimiter decode error without a panic; the code instead panics —
the element decode splits off an empty head segment and `str::split_at(1)`
is out of bounds (modelled by the distinguished outcome `panicSplitAt`,
which is a thread panic, not a returned `io::Error`). -/
theorem C4_counterexample :
    DataType.tryFrom ("*1\r\n\r\n".toList) = .error .panicSplitAt := by
  simp +decide [DataType.tryFrom, tryFromF.eq_def, chainLoopF.eq_def, chainparseF.eq_def,
    splitOnce, parseBulk, parseBulkFallback, strGet, parseUsize, parseIsize, parseDigits,
    digitsToNat, natDigits, digitChar, crlf, List.isPrefixOf, Except.map]

/-- Claim C4 as amended: when the tail consists of exactly `k < n`
well-formed element encodings, decoding the array buffer fails with the
missing-delimiter decode error (no panic); but a truncated tail whose next
bytes begin with `"\r\n"` instead panics in `split_at(1)`, as the
counterexample shows. -/
theorem C4_truncated_array (els : List DataType) (n : Nat)
    (hns : noSimpleList els = true) (hsz : sizeOKList els = true)
    (hlt : els.length < n) (hn : n < 2 ^ 64) :
    DataType.tryFrom ('*' :: (natDigits n ++ crlf ++ encodeList els))
      = .error .missingDelimiter := by
  have harr : '*' :: (natDigits n ++ crlf ++ encodeList els)
      = ('*' :: natDigits n) ++ crlf ++ encodeList els := by simp
  rw [harr]
  have hsp := splitOnce_crlf_boundary ('*' :: natDigits n) (encodeList els)
    (cr_not_mem_tag_digits '*' (by decide) n)
  have heval := tryFromF_eval_star
    ((('*' :: natDigits n) ++ crlf ++ encodeList els).length)
    (('*' :: natDigits n) ++ crlf ++ encodeList els) (natDigits n) (encodeList els) hsp
  rw [DataType.tryFrom, heval, parseUsize_natDigits hn]
  dsimp only
  set L := (('*' :: natDigits n) ++ crlf ++ encodeList els).length with hdefL
  have hH : ∀ e ∈ els, ∀ more : List Char,
      chainparseF L (encode e ++ more) = .ok (e, some more) := by
    intro e he more
    refine chainparseF_encode _ e (noSimpleList_mem hns he) (sizeOKList_mem hsz he) more ?_
    have h5 := encodeList_length_mem he
    rw [hdefL]
    simp only [List.length_append, List.length_cons, crlf, List.length_nil]
    omega
  obtain ⟨m, hnm⟩ : ∃ m, n = els.length + (m + 1) :=
    ⟨n - els.length - 1, by omega⟩
  have h0 : tryFromF L [] = .error .missingDelimiter := by
    rw [tryFromF.eq_def, show splitOnce [] crlf = none from by decide]
  have h1 : chainparseF L [] = .error .missingDelimiter := by
    rw [chainparseF.eq_def, h0]
  have h2 : chainLoopF L (m + 1) [] = .error .missingDelimiter := by
    rw [chainLoopF_succ, h1]
  have hla := chainLoopF_append L (m + 1) [] els hH
  rw [List.append_nil] at hla
  rw [hnm, hla, h2]
  rfl

/-- Witness for the amended C4: declared count 2, one element present. -/
theorem C4_truncated_array_witness :
    DataType.tryFrom ('*' :: (natDigits 2 ++ crlf ++ encodeList [.BulkString (some ['a'])]))
      = .error .missingDelimiter :=
  C4_truncated_array [.BulkString (some ['a'])] 2 (by decide) (by decide) (by decide)
    (by norm_num)

/-- Claim C5, counterexample: keyword matching is not case-insensitive.  The
mixed-case `"Echo"` at a keyword position is not recognized — the walk
produces no command at all (the claim demands `Echo "hi"`) — and the bare
mixed-case command line `"Ping"` is a construction error, not `Ping`. -/
theorem C5_counterexample :
    handleIncomingElements 0 [] [.SimpleString ("Echo".toList), .SimpleString ("hi".toList)]
      = .ok ([], []) ∧
    matchCommand ("Ping".toList) = .error .invalidCommand := by
  constructor
  · simp +decide [handleIncomingElements.eq_def, handleCommandStep, tryTake, Except.map]
  · simp +decide [matchCommand]

/-- Claim C5 as amended: command keywords are recognized only in their
all-uppercase or all-lowercase spellings (`ECHO`/`echo`, `PING`/`ping`,
`SET`/`set`, `GET`/`get`, and bare `PING`/`ping`); any other case variant
(for example `Echo` or `sEt`) is dropped as an unrecognized keyword. -/
theorem C5_keyword_case :
    (∀ (now : Nat) (db : DataMap) (p : List Char),
      handleIncomingElements now db
          [.BulkString (some ("ECHO".toList)), .BulkString (some p)] = .ok (db, [.Echo p]) ∧
      handleIncomingElements now db
          [.BulkString (some ("echo".toList)), .BulkString (some p)] = .ok (db, [.Echo p])) ∧
    (∀ (now : Nat) (db : DataMap),
      handleIncomingElements now db [.BulkString (some ("PING".toList))]
        = .ok (db, [.Ping none]) ∧
      handleIncomingElements now db [.BulkString (some ("ping".toList))]
        = .ok (db, [.Ping none])) ∧
    (∀ (now : Nat) (db : DataMap) (k v : List Char),
      handleIncomingElements now db
          [.BulkString (some ("SET".toList)), .BulkString (some k), .BulkString (some v)]
        = .ok (dbInsert db k ⟨v, none⟩, [.Set]) ∧
      handleIncomingElements now db
          [.BulkString (some ("set".toList)), .BulkString (some k), .BulkString (some v)]
        = .ok (dbInsert db k ⟨v, none⟩, [.Set])) ∧
    (∀ (now : Nat) (db : DataMap) (k : List Char),
      handleIncomingElements now db
          [.BulkString (some ("GET".toList)), .BulkString (some k)]
        = .ok (db, [.Get ((List.lookup k db).bind
            (fun v => if v.isExpired now then none else some v.data))]) ∧
      handleIncomingElements now db
          [.BulkString (some ("get".toList)), .BulkString (some k)]
        = .ok (db, [.Get ((List.lookup k db).bind
            (fun v => if v.isExpired now then none else some v.data))])) ∧
    (matchCommand ("PING".toList) = .ok (.Ping none) ∧
     matchCommand ("ping".toList) = .ok (.Ping none) ∧
     fromStr ("PING".toList) = .ok (.Ping none)) ∧
    (∀ (now : Nat) (db : DataMap),
      handleIncomingElements now db
          [.SimpleString ("sEt".toList), .SimpleString ("k".toList),
           .SimpleString ("v".toList)] = .ok (db, [])) := by
  refine ⟨?_, ?_, ?_, ?_, ?_, ?_⟩
  · intro now db p
    constructor <;>
      simp +decide [handleIncomingElements.eq_def, handleCommandStep, tryTake, Except.map]
  · intro now db
    constructor <;>
      simp +decide [handleIncomingElements.eq_def, handleCommandStep, tryTake, Except.map]
  · intro now db k v
    constructor <;>
      simp +decide [handleIncomingElements.eq_def, handleCommandStep, tryTake, Except.map,
        mapEntryTryFrom]
  · intro now db k
    constructor <;>
      simp +decide [handleIncomingElements.eq_def, handleCommandStep, tryTake, Except.map]
  · refine ⟨by simp +decide [matchCommand], by simp +decide [matchCommand], ?_⟩
    simp +decide [fromStr, matchCommand, splitOnce, List.isPrefixOf]
  · intro now db
    simp +decide [handleIncomingElements.eq_def, handleCommandStep, tryTake, Except.map]

/-- Claim C6, confirmed: (1) an entry is expired exactly when
`elapsed(start) = now - start` has reached the timeout; (2) `GET` returns
the stored data when the entry is present and not expired; (3) an expired
entry is treated as absent; (4) a missing key is absent; (5) `SET k v px 0`
at time `t0` followed by `GET k` at any `t1` with a non-zero elapsed delay
yields an absent result whose reply is the null bulk string `$-1\r\n`. -/
theorem C6_get_expiry :
    (∀ (now : Nat) (v : MapValue),
      MapValue.isExpired now v = true ↔
        ∃ t, v.timer = some t ∧ t.timeout ≤ now - t.start) ∧
    (∀ (now : Nat) (db : DataMap) (k : List Char) (v : MapValue),
      List.lookup k db = some v → MapValue.isExpired now v = false →
      handleIncomingElements now db [.BulkString (some ("GET".toList)), .BulkString (some k)]
        = .ok (db, [.Get (some v.data)])) ∧
    (∀ (now : Nat) (db : DataMap) (k : List Char) (v : MapValue),
      List.lookup k db = some v → MapValue.isExpired now v = true →
      handleIncomingElements now db [.BulkString (some ("GET".toList)), .BulkString (some k)]
        = .ok (db, [.Get none])) ∧
    (∀ (now : Nat) (db : DataMap) (k : List Char),
      List.lookup k db = none →
      handleIncomingElements now db [.BulkString (some ("GET".toList)), .BulkString (some k)]
        = .ok (db, [.Get none])) ∧
    (∀ (db : DataMap) (t0 t1 : Nat) (k v : List Char), 0 < t1 - t0 →
      handleIncomingElements t0 db
          [.BulkString (some ("SET".toList)), .BulkString (some k), .BulkString (some v),
           .BulkString (some ("px".toList)), .BulkString (some ("0".toList))]
        = .ok (dbInsert db k ⟨v, some ⟨t0, 0⟩⟩, [.Set]) ∧
      handleIncomingElements t1 (dbInsert db k ⟨v, some ⟨t0, 0⟩⟩)
          [.BulkString (some ("GET".toList)), .BulkString (some k)]
        = .ok (dbInsert db k ⟨v, some ⟨t0, 0⟩⟩, [.Get none]) ∧
      Command.display (.Get none) = .ok ("$-1\r\n".toList)) := by
  refine ⟨?_, ?_, ?_, ?_, ?_⟩
  · intro now v
    cases hv : v.timer with
    | none => simp [MapValue.isExpired, hv]
    | some t =>
      simp [MapValue.isExpired, MapValueTimer.isExpired, hv, decide_eq_true_eq]
  · intro now db k v hlk hexp
    simp +decide [handleIncomingElements.eq_def, handleCommandStep, tryTake, Except.map,
      hlk, hexp]
  · intro now db k v hlk hexp
    simp +decide [handleIncomingElements.eq_def, handleCommandStep, tryTake, Except.map,
      hlk, hexp]
  · intro now db k hlk
    simp +decide [handleIncomingElements.eq_def, handleCommandStep, tryTake, Except.map,
      hlk]
  · intro db t0 t1 k v _
    refine ⟨?_, ?_, by rfl⟩
    · simp +decide [handleIncomingElements.eq_def, handleCommandStep, tryTake, Except.map,
        mapEntryTryFrom, parseUsize, parseDigits, digitsToNat]
    · have hlk : List.lookup k (dbInsert db k ⟨v, some ⟨t0, 0⟩⟩)
          = some ⟨v, some ⟨t0, 0⟩⟩ := by
        simp [dbInsert, List.lookup]
      have hexp : MapValue.isExpired t1 ⟨v, some ⟨t0, 0⟩⟩ = true := by
        simp [MapValue.isExpired, MapValueTimer.isExpired]
      simp +decide [handleIncomingElements.eq_def, handleCommandStep, tryTake, Except.map,
        hlk, hexp]

/-- Witness for C6: a concrete expired lookup and the `px 0` scenario. -/
theorem C6_get_expiry_witness :
    (handleIncomingElements 9 [(['k'], ⟨['v'], none⟩)]
        [.BulkString (some ("GET".toList)), .BulkString (some ['k'])]
      = .ok ([(['k'], ⟨['v'], none⟩)], [.Get (some ['v'])])) ∧
    (handleIncomingElements 0 []
        [.BulkString (some ("SET".toList)), .BulkString (some ['k']),
         .BulkString (some ['v']), .BulkString (some ("px".toList)),
         .BulkString (some ("0".toList))]
      = .ok (dbInsert [] ['k'] ⟨['v'], some ⟨0, 0⟩⟩, [.Set])) ∧
    (handleIncomingElements 3 (dbInsert [] ['k'] ⟨['v'], some ⟨0, 0⟩⟩)
        [.BulkString (some ("GET".toList)), .BulkString (some ['k'])]
      = .ok (dbInsert [] ['k'] ⟨['v'], some ⟨0, 0⟩⟩, [.Get none])) :=
  ⟨C6_get_expiry.2.1 9 [(['k'], ⟨['v'], none⟩)] ['k'] ⟨['v'], none⟩ (by decide) (by decide),
   (C6_get_expiry.2.2.2.2 [] 0 3 ['k'] ['v'] (by decide)).1,
   (C6_get_expiry.2.2.2.2 [] 0 3 ['k'] ['v'] (by decide)).2.1⟩

/-- Claim C7, confirmed: `SET k v` with no `px` inserts the entry with no
timer, and a subsequent `GET k` (no intervening write, at any later time)
returns exactly `v`. -/
theorem C7_set_then_get (db : DataMap) (t1 t2 : Nat) (k v : List Char) :
    handleIncomingElements t1 db
        [.BulkString (some ("SET".toList)), .BulkString (some k), .BulkString (some v)]
      = .ok (dbInsert db k ⟨v, none⟩, [.Set]) ∧
    handleIncomingElements t2 (dbInsert db k ⟨v, none⟩)
        [.BulkString (some ("GET".toList)), .BulkString (some k)]
      = .ok (dbInsert db k ⟨v, none⟩, [.Get (some v)]) := by
  constructor
  · simp +decide [handleIncomingElements.eq_def, handleCommandStep, tryTake, Except.map,
      mapEntryTryFrom]
  · have hlk : List.lookup k (dbInsert db k ⟨v, none⟩) = some ⟨v, none⟩ := by
      simp [dbInsert, List.lookup]
    have hexp : MapValue.isExpired t2 ⟨v, none⟩ = false := by
      simp [MapValue.isExpired]
    simp +decide [handleIncomingElements.eq_def, handleCommandStep, tryTake, Except.map,
      hlk, hexp]

/-- Claim C8, confirmed: a `GET` never mutates the store — for any store
(including one whose entry at the key is expired) and any key element, the
store that comes out of the walk is exactly the store that went in; removal
can only come from an overwriting `SET`. -/
theorem C8_get_pure (now : Nat) (db : DataMap) (s : List Char) (kElt : DataType)
    (hs : s = "GET".toList ∨ s = "get".toList) :
    handleIncomingElements now db [.BulkString (some s), kElt]
      = .ok (db,
          (tryTake kElt).elim []
            (fun k => [Command.Get ((List.lookup k db).bind
              (fun v => if v.isExpired now then none else some v.data))])) ∧
    handleIncomingElements now db [.BulkString (some s)] = .ok (db, []) := by
  rcases hs with rfl | rfl <;>
    refine ⟨?_, by simp +decide [handleIncomingElements.eq_def, handleCommandStep,
      tryTake, Except.map]⟩ <;>
    · cases kElt with
      | SimpleString s =>
        simp +decide [handleIncomingElements.eq_def, handleCommandStep, tryTake,
          Except.map, Option.elim]
      | BulkString o =>
        cases o <;>
          simp +decide [handleIncomingElements.eq_def, handleCommandStep, tryTake,
            Except.map, Option.elim]
      | Array l =>
        simp +decide [handleIncomingElements.eq_def, handleCommandStep, tryTake,
          Except.map, Option.elim]

/-- Witness for C8 on a store whose only entry is already expired. -/
theorem C8_get_pure_witness :
    handleIncomingElements 9 [(['k'], ⟨['v'], some ⟨0, 2⟩⟩)]
        [.BulkString (some ("GET".toList)), .BulkString (some ['k'])]
      = .ok ([(['k'], ⟨['v'], some ⟨0, 2⟩⟩)], [.Get none]) ∧
    handleIncomingElements 9 [(['k'], ⟨['v'], some ⟨0, 2⟩⟩)]
        [.BulkString (some ("GET".toList))]
      = .ok ([(['k'], ⟨['v'], some ⟨0, 2⟩⟩)], []) :=
  (C8_get_pure 9 [(['k'], ⟨['v'], some ⟨0, 2⟩⟩)] ("GET".toList)
    (.BulkString (some ['k'])) (Or.inl rfl))

/-- Claim C9, confirmed: a non-string-bearing element (null bulk string or
nested array) at a keyword position hits `todo!()`, and rendering the reply
of a `Ping` that carries a payload hits `todo!()` — both modelled as the
fatal `todoNotImplemented` outcome that aborts processing of the buffer
instead of skipping the element or producing an error reply. -/
theorem C9_unimplemented_paths :
    (∀ (now : Nat) (db : DataMap) (rest : List DataType),
      handleIncomingElements now db (.BulkString none :: rest)
        = .error .todoNotImplemented) ∧
    (∀ (now : Nat) (db : DataMap) (els rest : List DataType),
      handleIncomingElements now db (.Array els :: rest)
        = .error .todoNotImplemented) ∧
    (∀ p : List Char, Command.display (.Ping (some p)) = .error .todoNotImplemented) := by
  refine ⟨?_, ?_, ?_⟩ <;> intros <;>
    simp [handleIncomingElements.eq_def, handleCommandStep, tryTake, Command.display]

/-- Claim C10, confirmed: a `px` whose millisecond count is missing or fails
to parse as `u64` (for example `abc` or a negative count) still inserts the
key with no timer, and the `SET` still replies `+OK\r\n` — no error, no
abort. -/
theorem C10_px_unparsable (now : Nat) (db : DataMap) (k v junk : List Char)
    (hj : parseUsize junk = none) :
    handleIncomingElements now db
        [.BulkString (some ("SET".toList)), .BulkString (some k), .BulkString (some v),
         .BulkString (some ("px".toList)), .BulkString (some junk)]
      = .ok (dbInsert db k ⟨v, none⟩, [.Set]) ∧
    handleIncomingElements now db
        [.BulkString (some ("SET".toList)), .BulkString (some k), .BulkString (some v),
         .BulkString (some ("px".toList))]
      = .ok (dbInsert db k ⟨v, none⟩, [.Set]) ∧
    Command.display .Set = .ok ("+OK\r\n".toList) := by
  refine ⟨?_, ?_, by rfl⟩ <;>
    simp +decide [handleIncomingElements.eq_def, handleCommandStep, tryTake, Except.map,
      mapEntryTryFrom, hj]

/-- Witness for C10 with the unparsable count `abc` and the negative count
`-5`. -/
theorem C10_px_unparsable_witness :
    (handleIncomingElements 0 []
        [.BulkString (some ("SET".toList)), .BulkString (some ['k']),
         .BulkString (some ['v']), .BulkString (some ("px".toList)),
         .BulkString (some ("abc".toList))]
      = .ok (dbInsert [] ['k'] ⟨['v'], none⟩, [.Set])) ∧
    (handleIncomingElements 0 []
        [.BulkString (some ("SET".toList)), .BulkString (some ['k']),
         .BulkString (some ['v']), .BulkString (some ("px".toList)),
         .BulkString (some ("-5".toList))]
      = .ok (dbInsert [] ['k'] ⟨['v'], none⟩, [.Set])) :=
  ⟨(C10_px_unparsable 0 [] ['k'] ['v'] ("abc".toList) (by decide)).1,
   (C10_px_unparsable 0 [] ['k'] ['v'] ("-5".toList) (by decide)).1⟩

end Redis
